import Mathlib

/-!
Verification of the MIDI-Normalizer core pipeline (src/normalize.ts) against its
natural-language specification.  The four stage functions — `normalizeVelocities`,
`removeSilent`, `normalizeChannels`, `addBuffers` — are embedded shallowly:
JavaScript numbers become `ℚ` (velocities, seconds) or `ℤ` (delta times, channels),
in-place mutation becomes pure rebuilding of the track lists, and the one reachable
runtime error (indexing into `undefined` when the tracks list is empty) becomes an
`Option` result.
-/

namespace MidiNorm

/-- JavaScript `Math.round`: round half toward positive infinity. -/
def jround (q : ℚ) : ℤ := ⌊q + 1/2⌋

/-- A MIDI event, following the tagged event model of the `midi-file` library as the
code uses it: `noteOn`/`noteOff` carry delta time, channel, note number and velocity;
`meta` events (tempo, names, end-of-track, ...) carry no channel; `channelOther`
stands for the remaining channel-bearing kinds (controller, program change, ...). -/
inductive MEvent where
  | noteOn (deltaTime : ℤ) (channel : ℤ) (noteNumber : ℤ) (velocity : ℚ)
  | noteOff (deltaTime : ℤ) (channel : ℤ) (noteNumber : ℤ) (velocity : ℚ)
  | meta (deltaTime : ℤ) (payload : ℕ)
  | channelOther (deltaTime : ℤ) (channel : ℤ) (payload : ℕ)
  deriving DecidableEq, Repr

/-- `event.deltaTime`. -/
def MEvent.deltaTime : MEvent → ℤ
  | .noteOn dt _ _ _ => dt
  | .noteOff dt _ _ _ => dt
  | .meta dt _ => dt
  | .channelOther dt _ _ => dt

/-- `event.deltaTime += d` (as a pure rebuild). -/
def MEvent.addDelta (d : ℤ) : MEvent → MEvent
  | .noteOn dt c n v => .noteOn (dt + d) c n v
  | .noteOff dt c n v => .noteOff (dt + d) c n v
  | .meta dt p => .meta (dt + d) p
  | .channelOther dt c p => .channelOther (dt + d) c p

/-- The `channel` field when `"channel" in event`, else `none`. -/
def MEvent.channelField : MEvent → Option ℤ
  | .noteOn _ c _ _ => some c
  | .noteOff _ c _ _ => some c
  | .meta _ _ => none
  | .channelOther _ c _ => some c

/-- `event.channel = ch`, a no-op on events without a channel field
(the code guards with `"channel" in event`). -/
def MEvent.setChannel (ch : ℤ) : MEvent → MEvent
  | .noteOn dt _ n v => .noteOn dt ch n v
  | .noteOff dt _ n v => .noteOff dt ch n v
  | .meta dt p => .meta dt p
  | .channelOther dt _ p => .channelOther dt ch p

/-- `event.type === "noteOn" || event.type === "noteOff"`. -/
def MEvent.isNote : MEvent → Bool
  | .noteOn _ _ _ _ => true
  | .noteOff _ _ _ _ => true
  | _ => false

/-- The `velocity` field of note events (0 for the others, which have none). -/
def MEvent.velocity : MEvent → ℚ
  | .noteOn _ _ _ v => v
  | .noteOff _ _ _ v => v
  | _ => 0

/-- The MIDI header; the pipeline reads only `ticksPerBeat` (`?? 480`). -/
structure MidiHeader where
  ticksPerBeat : Option ℚ
  deriving DecidableEq, Repr

/-- `midi.data`: header plus the list of tracks. -/
structure MidiData where
  header : MidiHeader
  tracks : List (List MEvent)
  deriving DecidableEq, Repr

/-- The `MidiObj` record from src/types.ts: the per-file unit of work.
`instrumentNames` and `trackNames` are the sparse `Record<number, string>` maps,
modelled as functions to `Option String`. -/
structure MidiObj where
  path : String
  data : MidiData
  instrumentNames : ℕ → Option String
  trackNames : ℕ → Option String

/-- Rebuild a `MidiObj` with new track contents; all stages only ever touch tracks. -/
def setTracks (midi : MidiObj) (tracks : List (List MEvent)) : MidiObj :=
  { midi with data := { midi.data with tracks := tracks } }

/-- The event at track index `i`, position `j`. -/
def eventAt (midi : MidiObj) (i j : ℕ) : Option MEvent :=
  (midi.data.tracks[i]?).bind fun t => t[j]?

/-- `VelocitiesOptions` from src/types.ts. -/
structure VelocitiesOptions where
  min : ℚ
  max : ℚ
  removeSilent : Option Bool := none

/-- A rule of `ChannelsOptions.match`: either a `patterns` (regex) rule or an
`includes` (substring) rule.  The `exclusive` flag is carried because the JSON
config schema declares and documents it, even though src/normalize.ts never
reads it. -/
inductive MatchRule where
  | patterns (pats : List String) (patternFlags : Option String) (channel : ℤ)
      (exclusive : Option Bool)
  | includes (incs : List String) (channel : ℤ) (exclusive : Option Bool)
  deriving DecidableEq, Repr

/-- The `channel` field of a rule. -/
def MatchRule.channel : MatchRule → ℤ
  | .patterns _ _ ch _ => ch
  | .includes _ ch _ => ch

/-- `ChannelsOptions` from src/types.ts; the source field is called `match`
(a reserved word in Lean), here `rules`. -/
structure ChannelsOptions where
  rules : List MatchRule

/-- `MiscOptions` from src/types.ts: optional start/end buffers in seconds. -/
structure MiscOptions where
  startBuffer : Option ℚ := none
  endBuffer : Option ℚ := none

/-- JavaScript truthiness of an optional string: `undefined` and `""` are falsy. -/
def truthy : Option String → Bool
  | none => false
  | some s => !s.isEmpty

/-- JavaScript truthiness of an optional number: `undefined` and `0` are falsy. -/
def truthyNum : Option ℚ → Bool
  | none => false
  | some q => if q = 0 then false else true

/-- Is `pat` (as a character list) a prep of `s`, character by character? -/
def listIsPre : List Char → List Char → Bool
  | [], _ => true
  | _ :: _, [] => false
  | a :: as, b :: bs => a = b && listIsPre as bs

/-- Does `needle` occur as a contiguous run inside `hay`? -/
def listSubstr (needle : List Char) : List Char → Bool
  | [] => needle.isEmpty
  | c :: tl => listIsPre needle (c :: tl) || listSubstr needle tl

/-- Model of JavaScript `s.includes(sub)`. -/
def strIncludes (s sub : String) : Bool := listSubstr sub.toList s.toList

/-- One pattern character against one text character: `.` matches anything,
a literal matches itself (case-insensitively when `ic`). -/
def patCharMatch (ic : Bool) (p c : Char) : Bool :=
  p = '.' || (if ic then p.toLower = c.toLower else p = c)

/-- Match the whole pattern starting at the head of the text. -/
def matchFrom (ic : Bool) : List Char → List Char → Bool
  | [], _ => true
  | _ :: _, [] => false
  | p :: ps, c :: cs => patCharMatch ic p c && matchFrom ic ps cs

/-- Try the pattern at every start position of the text. -/
def searchAll (ic : Bool) (ps : List Char) : List Char → Bool
  | [] => matchFrom ic ps []
  | c :: tl => matchFrom ic ps (c :: tl) || searchAll ic ps tl

/-- Model of the host regular-expression engine,
`new RegExp(pattern, flags).test(text)` (an external collaborator of the core,
like the MIDI codec), restricted to patterns built from literal characters and
the `.` wildcard — which covers every pattern occurring in this development.
The `i` flag selects case-insensitive comparison. -/
def regexTest (pattern flags text : String) : Bool :=
  searchAll (flags.toList.contains 'i') pattern.toList text.toList

/-! ## Stage 2: normalizeVelocities (src/normalize.ts lines 11-47) -/

/-- The empty `channelVelocities` record. -/
def emptyCV : ℤ → Option (ℚ × ℚ) := fun _ => none

/-- One step of pass 1: fold a single event into the `channelVelocities` record. -/
def updCV (cv : ℤ → Option (ℚ × ℚ)) (e : MEvent) : ℤ → Option (ℚ × ℚ) :=
  match e with
  | .noteOn _ c _ v =>
    if 0 < v then
      fun x =>
        if x = c then
          match cv c with
          | none => some (v, v)
          | some p => some (min p.1 v, max p.2 v)
        else cv x
    else cv
  | _ => cv

/-- Pass 1: extract the observed velocity range of every channel, folded across
all tracks in order. -/
def channelVelocities (midi : MidiObj) : ℤ → Option (ℚ × ℚ) :=
  midi.data.tracks.foldl (fun cv track => track.foldl updCV cv) emptyCV

/-- Pass 2, per event: rescale a loud `noteOn` according to its channel's observed
range; everything else is untouched.  (In the source, a qualifying event always has
an entry in `channelVelocities`, so the `none` branch is unreachable and kept as
the identity.) -/
def scaleEvent (cv : ℤ → Option (ℚ × ℚ)) (opts : VelocitiesOptions) :
    MEvent → MEvent
  | .noteOn dt c n v =>
    if 0 < v then
      match cv c with
      | some p =>
        if p.1 = p.2 then
          .noteOn dt c n ((jround ((opts.min + opts.max) / 2) : ℤ) : ℚ)
        else
          .noteOn dt c n
            ((jround ((v - p.1) / (p.2 - p.1) * (opts.max - opts.min) + opts.min) : ℤ) : ℚ)
      | none => .noteOn dt c n v
    else .noteOn dt c n v
  | e => e

/-- `normalizeVelocities(midi, opts)`. -/
def normalizeVelocities (midi : MidiObj) (opts : VelocitiesOptions) : MidiObj :=
  setTracks midi
    (midi.data.tracks.map fun t => t.map (scaleEvent (channelVelocities midi) opts))

/-- The velocity contributed by one event to channel `c`'s observed range:
`noteOn` on channel `c` with positive velocity, else nothing. -/
def oneVel (c : ℤ) (e : MEvent) : Option ℚ :=
  match e with
  | .noteOn _ c' _ v => if c' = c ∧ 0 < v then some v else none
  | _ => none

/-- Spec-side: all velocities of `NoteOn` events with velocity > 0 on channel `c`,
across all tracks, in order. -/
def noteOnVelocities (midi : MidiObj) (c : ℤ) : List ℚ :=
  midi.data.tracks.flatten.filterMap (oneVel c)

/-- Spec-side: `(observedMin, observedMax)` of channel `c`, when the channel has at
least one qualifying event. -/
def observedRange (midi : MidiObj) (c : ℤ) : Option (ℚ × ℚ) :=
  match noteOnVelocities midi c with
  | [] => none
  | v :: vs => some (vs.foldl min v, vs.foldl max v)

/-- Spec-side per-event rewrite, phrased with `observedRange` exactly as the spec
describes the algorithm. -/
def specScaleEvent (midi : MidiObj) (opts : VelocitiesOptions) : MEvent → MEvent
  | .noteOn dt c n v =>
    if 0 < v then
      match observedRange midi c with
      | some p =>
        if p.1 = p.2 then
          .noteOn dt c n ((jround ((opts.min + opts.max) / 2) : ℤ) : ℚ)
        else
          .noteOn dt c n
            ((jround ((v - p.1) / (p.2 - p.1) * (opts.max - opts.min) + opts.min) : ℤ) : ℚ)
      | none => .noteOn dt c n v
    else .noteOn dt c n v
  | e => e

/-- Accumulate one velocity into an optional running (min, max) pair. -/
def rangeStep (a : Option (ℚ × ℚ)) (v : ℚ) : Option (ℚ × ℚ) :=
  match a with
  | none => some (v, v)
  | some p => some (min p.1 v, max p.2 v)

/-! ## Stage 1: removeSilent (src/normalize.ts lines 50-68) -/

/-- Does `e` match the inner search, `nextEvent.type === "noteOff" &&
nextEvent.noteNumber === note && nextEvent.channel === ch`? -/
def isNoteOffMatch (note ch : ℤ) (e : MEvent) : Bool :=
  match e with
  | .noteOff _ c n _ => n = note && c = ch
  | _ => false

/-- The inner `for j` loop: remove the first matching `noteOff`, if any. -/
def removeFirstNoteOff (note ch : ℤ) : List MEvent → List MEvent
  | [] => []
  | e :: rest =>
    if isNoteOffMatch note ch e then rest else e :: removeFirstNoteOff note ch rest

/-- One iteration of the outer loop at index `i`: if `track[i]` is a `noteOn` with
velocity 0, splice it out and remove the first matching `noteOff` at an index ≥ i. -/
def pruneAt (track : List MEvent) (i : ℕ) : List MEvent :=
  match track[i]? with
  | some (.noteOn _ c n v) =>
    if v = 0 then track.take i ++ removeFirstNoteOff n c (track.drop (i + 1))
    else track
  | _ => track

/-- The outer loop, `for (let i = track.length - 1; i >= 0; i--)`: indices
`i-1, i-2, ..., 0` in that order (splices only ever happen at indices ≥ the
current one, so lower positions are stable). -/
def pruneDown : ℕ → List MEvent → List MEvent
  | 0, track => track
  | i + 1, track => pruneDown i (pruneAt track i)

/-- `removeSilent`, on one track. -/
def removeSilentTrack (track : List MEvent) : List MEvent :=
  pruneDown track.length track

/-- `removeSilent(midi)`. -/
def removeSilent (midi : MidiObj) : MidiObj :=
  setTracks midi (midi.data.tracks.map removeSilentTrack)

/-- A `noteOn` with velocity 0 (the events `removeSilent` is meant to drop). -/
def isSilentOn : MEvent → Bool
  | .noteOn _ _ _ v => v = 0
  | _ => false

/-- Spec-side pruning, stated in the claim's words: scan the track front to back;
every `NoteOn` with velocity 0 is removed together with the nearest subsequent
`NoteOff` of the same note number and channel among the events not already removed
(if none exists the orphan is removed alone); every other event is kept, in order,
with its own `deltaTime`. -/
def specPrune : List MEvent → List MEvent
  | [] => []
  | .noteOn dt c n v :: rest =>
    if v = 0 then specPrune (removeFirstNoteOff n c rest)
    else .noteOn dt c n v :: specPrune rest
  | e :: rest => e :: specPrune rest
termination_by l => l.length
decreasing_by
  all_goals simp_wf
  all_goals
    have hle : ∀ (x y : ℤ) (l : List MEvent),
        (removeFirstNoteOff x y l).length ≤ l.length := by
      intro x y l
      induction l with
      | nil => simp [removeFirstNoteOff]
      | cons a as ih =>
        rw [removeFirstNoteOff]
        split
        · simp
        · simpa using ih
  all_goals have := hle n c rest
  all_goals omega

/-! ## Stage 3: normalizeChannels (src/normalize.ts lines 76-104) -/

/-- `(name && new RegExp(pattern, flags ?? "i").test(name))` for an optional name. -/
def nameTest (pattern : String) (flags : Option String) (name : Option String) : Bool :=
  truthy name && regexTest pattern (flags.getD "i") (name.getD "")

/-- `(name && name.includes(sub))` for an optional name. -/
def nameIncl (sub : String) (name : Option String) : Bool :=
  truthy name && strIncludes (name.getD "") sub

/-- Does a rule match a track, given its (optional) instrument and track names? -/
def ruleMatches (inst tn : Option String) : MatchRule → Bool
  | .patterns pats flags _ _ =>
    pats.any fun p => nameTest p flags inst || nameTest p flags tn
  | .includes incs _ _ =>
    incs.any fun s => nameIncl s inst || nameIncl s tn

/-- `midi.data.tracks.forEach((track, ti) => ...)` for one rule: rewrite the channel
of every channel-bearing event of every matching track, indices starting at `ti`. -/
def applyRuleFrom (inst tn : ℕ → Option String) (rule : MatchRule) :
    ℕ → List (List MEvent) → List (List MEvent)
  | _, [] => []
  | ti, t :: ts =>
    (if ruleMatches (inst ti) (tn ti) rule then t.map (MEvent.setChannel rule.channel)
     else t) :: applyRuleFrom inst tn rule (ti + 1) ts

/-- `normalizeChannels(midi, options)`: iterate the rules in declared order. -/
def normalizeChannels (midi : MidiObj) (options : ChannelsOptions) : MidiObj :=
  setTracks midi
    (options.rules.foldl
      (fun ts rule => applyRuleFrom midi.instrumentNames midi.trackNames rule 0 ts)
      midi.data.tracks)

/-! ## Stage 4: addBuffers (src/normalize.ts lines 109-155) -/

/-- `midi.data.header.ticksPerBeat ?? 480`. -/
def tpbOf (midi : MidiObj) : ℚ := (midi.data.header.ticksPerBeat).getD 480

/-- `track.findLastIndex(p)`, as an optional index. -/
def findLastIdx (p : MEvent → Bool) : List MEvent → Option ℕ
  | [] => none
  | e :: ts =>
    match findLastIdx p ts with
    | some i => some (i + 1)
    | none => if p e then some 0 else none

/-- `longestTrack.some(e => "channel" in e) ? longestTrack.find(...)?.channel ?? 1 : 1`. -/
def chooseChannel (track : List MEvent) : ℤ :=
  if track.any fun e => (MEvent.channelField e).isSome then
    match track.find? fun e => (MEvent.channelField e).isSome with
    | some e => (MEvent.channelField e).getD 1
    | none => 1
  else 1

/-- The index the `reduce` over tracks lands on: the first track of strictly
greatest length (`current.length > longest.length`, seeded with `tracks[0]`). -/
def longestIdx (tracks : List (List MEvent)) : ℕ :=
  (tracks.enum.foldl
    (fun best p => if p.2.length > best.2 then (p.1, p.2.length) else best)
    (0, (tracks.headD []).length)).1

/-- The end-buffer splice on a non-empty tracks list: locate the longest track, read
its last event overall, choose the channel, and insert the two ghost notes right
after the last note-on/note-off event (a no-op when the longest track is empty or
holds no note event, mirroring the `if(lastEvent)` and `lastNoteIndex !== -1`
guards). -/
def endSplice (ticks : ℤ) (tracks : List (List MEvent)) : List (List MEvent) :=
  let li := longestIdx tracks
  let lt := tracks.getD li []
  match lt.getLast? with
  | none => tracks
  | some lastEvent =>
    let ch := chooseChannel lt
    match findLastIdx MEvent.isNote lt with
    | none => tracks
    | some k =>
      tracks.set li
        (lt.take (k + 1)
          ++ [MEvent.noteOn (lastEvent.deltaTime + ticks) ch 60 0,
              MEvent.noteOff (lastEvent.deltaTime + ticks + 1) ch 60 0]
          ++ lt.drop (k + 1))

/-- `addBuffers(midi, opts)`.  Returns `none` exactly where the source throws:
with a truthy `endBuffer` and an empty tracks list, `tracks.reduce(..., tracks[0])`
yields `undefined` and `longestTrack[longestTrack.length - 1]` is a TypeError. -/
def addBuffers (midi : MidiObj) (opts : MiscOptions) : Option MidiObj :=
  let tpb := tpbOf midi
  let tracks1 :=
    if truthyNum opts.startBuffer then
      midi.data.tracks.map fun t =>
        t.map (MEvent.addDelta (jround (opts.startBuffer.getD 0 * tpb)))
    else midi.data.tracks
  if truthyNum opts.endBuffer then
    if tracks1.isEmpty then none
    else some (setTracks midi (endSplice (jround (opts.endBuffer.getD 0 * tpb)) tracks1))
  else some (setTracks midi tracks1)

/-! ## Concrete inputs for counterexamples and witnesses -/

/-- A `MidiObj` with the given tracks, no names, no explicit ticksPerBeat. -/
def mkMidi (tracks : List (List MEvent)) : MidiObj :=
  { path := "in.mid"
    data := { header := { ticksPerBeat := none }, tracks := tracks }
    instrumentNames := fun _ => none
    trackNames := fun _ => none }

/-- Two events, both at delta 0: exposes that the start buffer shifts every delta. -/
def exStartM : MidiObj :=
  mkMidi [[MEvent.noteOn 0 1 60 64, MEvent.noteOff 0 1 60 64]]

/-- The spec's silence-pruning example: `[NoteOn(vel=0,note=60,ch=1), NoteOff(note=60,ch=1)]`. -/
def exPairTrack : List MEvent :=
  [MEvent.noteOn 0 1 60 0, MEvent.noteOff 5 1 60 0]

/-- A silent `noteOn` with no matching `noteOff` anywhere after it. -/
def exOrphanTrack : List MEvent :=
  [MEvent.noteOn 0 1 60 0, MEvent.noteOff 3 2 60 64, MEvent.noteOff 4 1 61 64]

/-- A silent `noteOn` followed by several `noteOff`s; only the nearest one matching
note 60 / channel 1 (the third) is removed with it. -/
def exNearestTrack : List MEvent :=
  [MEvent.noteOn 0 1 60 0, MEvent.noteOff 1 2 60 0, MEvent.noteOff 2 1 61 0,
   MEvent.noteOff 3 1 60 64, MEvent.noteOff 4 1 60 0]

/-- One track on channel 3, named "Grand Piano" (as a track name). -/
def exPianoM : MidiObj :=
  { mkMidi [[MEvent.noteOn 0 3 60 64]] with
    trackNames := fun n => if n = 0 then some "Grand Piano" else none }

/-- The spec's exclusivity example: an exclusive "piano" rule, then a catch-all. -/
def exPianoRules : ChannelsOptions :=
  { rules := [MatchRule.patterns ["piano"] none 1 (some true),
              MatchRule.patterns ["."] none 5 none] }

/-- Channel 1 observes velocities 10 and 20. -/
def exRangeM : MidiObj :=
  mkMidi [[MEvent.noteOn 0 1 60 10, MEvent.noteOn 2 1 62 20]]

/-- The config defaults `min = 0.1`, `max = 1.0`. -/
def exFracOpts : VelocitiesOptions := { min := 1/10, max := 1 }

/-- A non-empty longest track with no note events at all. -/
def exMetaM : MidiObj := mkMidi [[MEvent.meta 7 0]]

/-- An empty tracks list. -/
def exEmptyM : MidiObj := mkMidi []

/-- A two-track file; the second track is the longest and ends in a meta event. -/
def exEndM : MidiObj :=
  mkMidi
    [[MEvent.noteOn 0 2 64 80],
     [MEvent.meta 0 1, MEvent.noteOn 3 4 62 90, MEvent.noteOff 5 4 62 0,
      MEvent.meta 9 2]]

/-- The events pass 2 of `normalizeVelocities` rewrites: `NoteOn`s with velocity > 0. -/
def isLoudOn : MEvent → Bool
  | .noteOn _ _ _ v => decide (0 < v)
  | _ => false

/-! ## Lemmas: the two-pass velocity fold computes the spec's observed ranges -/

theorem updCV_apply (cv : ℤ → Option (ℚ × ℚ)) (e : MEvent) (c : ℤ) :
    updCV cv e c =
      match oneVel c e with
      | none => cv c
      | some v => rangeStep (cv c) v := by
  cases e with
  | noteOn dt c' n v =>
    by_cases h0 : 0 < v
    · by_cases hc : c = c'
      · subst hc
        simp [updCV, oneVel, rangeStep, h0]
      · have hc' : ¬c' = c := fun h => hc h.symm
        simp [updCV, oneVel, h0, hc, hc']
    · simp [updCV, oneVel, h0]
  | noteOff dt c' n v => simp [updCV, oneVel]
  | meta dt p => simp [updCV, oneVel]
  | channelOther dt c' p => simp [updCV, oneVel]

theorem foldl_updCV (l : List MEvent) (cv : ℤ → Option (ℚ × ℚ)) (c : ℤ) :
    l.foldl updCV cv c = (l.filterMap (oneVel c)).foldl rangeStep (cv c) := by
  induction l generalizing cv with
  | nil => rfl
  | cons e l ih =>
    rw [List.foldl_cons, ih, List.filterMap_cons]
    rw [updCV_apply cv e c]
    cases h : oneVel c e with
    | none => rfl
    | some v => rfl

theorem rangeStep_foldl (vs : List ℚ) (mn mx : ℚ) :
    vs.foldl rangeStep (some (mn, mx)) = some (vs.foldl min mn, vs.foldl max mx) := by
  induction vs generalizing mn mx with
  | nil => rfl
  | cons v vs ih => simpa [rangeStep] using ih (min mn v) (max mx v)

theorem channelVelocities_eq_observed (midi : MidiObj) (c : ℤ) :
    channelVelocities midi c = observedRange midi c := by
  have h1 : channelVelocities midi c =
      (midi.data.tracks.flatten.filterMap (oneVel c)).foldl rangeStep (emptyCV c) := by
    rw [channelVelocities, ← List.foldl_flatten, foldl_updCV]
  rw [h1, observedRange]
  cases h : noteOnVelocities midi c with
  | nil => rw [noteOnVelocities] at h; rw [h]; rfl
  | cons v vs =>
    rw [noteOnVelocities] at h
    rw [h, List.foldl_cons]
    have : rangeStep (emptyCV c) v = some (v, v) := rfl
    rw [this, rangeStep_foldl]

theorem scaleEvent_eq_spec (midi : MidiObj) (opts : VelocitiesOptions) (e : MEvent) :
    scaleEvent (channelVelocities midi) opts e = specScaleEvent midi opts e := by
  cases e with
  | noteOn dt c n v =>
    rw [scaleEvent, specScaleEvent, channelVelocities_eq_observed]
  | noteOff dt c n v => rfl
  | meta dt p => rfl
  | channelOther dt c p => rfl

/-- C3 — Velocity Normalizer algorithm: `normalizeVelocities` acts as the pointwise
rewrite described by the spec — every `NoteOn` with velocity > 0 on a channel whose
observed range (taken over all `NoteOn`s with velocity > 0 on that channel, across
all tracks) has `observedMin = observedMax` becomes `round((min + max) / 2)`; on a
channel with `observedMin < observedMax` it becomes
`round((v - observedMin) / (observedMax - observedMin) * (max - min) + min)`;
`NoteOn`s with velocity 0 and all other events are unchanged
(`specScaleEvent` is that per-event map, stated in the spec's words). -/
theorem normalizeVelocities_matches_spec (midi : MidiObj) (opts : VelocitiesOptions) :
    normalizeVelocities midi opts =
      setTracks midi (midi.data.tracks.map fun t => t.map (specScaleEvent midi opts)) := by
  rw [normalizeVelocities]
  congr 1
  simp [scaleEvent_eq_spec]

/-! ## Lemmas: bounds and monotonicity of the rescaling -/

theorem jround_mono {a b : ℚ} (h : a ≤ b) : jround a ≤ jround b :=
  Int.floor_le_floor (by linarith)

theorem foldl_min_le_init (vs : List ℚ) (v0 : ℚ) : vs.foldl min v0 ≤ v0 := by
  induction vs generalizing v0 with
  | nil => simp
  | cons x xs ih =>
    simp only [List.foldl_cons]
    exact le_trans (ih (min v0 x)) (min_le_left _ _)

theorem foldl_min_le_mem {vs : List ℚ} {a : ℚ} (h : a ∈ vs) (v0 : ℚ) :
    vs.foldl min v0 ≤ a := by
  induction vs generalizing v0 with
  | nil => cases h
  | cons x xs ih =>
    simp only [List.foldl_cons]
    rcases List.mem_cons.1 h with rfl | h'
    · exact le_trans (foldl_min_le_init xs (min v0 a)) (min_le_right _ _)
    · exact ih h' (min v0 x)

theorem init_le_foldl_max (vs : List ℚ) (v0 : ℚ) : v0 ≤ vs.foldl max v0 := by
  induction vs generalizing v0 with
  | nil => simp
  | cons x xs ih =>
    simp only [List.foldl_cons]
    exact le_trans (le_max_left _ _) (ih (max v0 x))

theorem mem_le_foldl_max {vs : List ℚ} {a : ℚ} (h : a ∈ vs) (v0 : ℚ) :
    a ≤ vs.foldl max v0 := by
  induction vs generalizing v0 with
  | nil => cases h
  | cons x xs ih =>
    simp only [List.foldl_cons]
    rcases List.mem_cons.1 h with rfl | h'
    · exact le_trans (le_max_right _ _) (init_le_foldl_max xs (max v0 a))
    · exact ih h' (max v0 x)

theorem observedRange_bounds {midi : MidiObj} {c : ℤ} {mn mx v : ℚ}
    (hobs : observedRange midi c = some (mn, mx))
    (hv : v ∈ noteOnVelocities midi c) : mn ≤ v ∧ v ≤ mx := by
  rw [observedRange] at hobs
  rcases hl : noteOnVelocities midi c with _ | ⟨v0, vs⟩
  · rw [hl] at hv; cases hv
  · rw [hl] at hobs hv
    simp only [Option.some.injEq, Prod.mk.injEq] at hobs
    obtain ⟨rfl, rfl⟩ := hobs
    rcases List.mem_cons.1 hv with rfl | h'
    · exact ⟨foldl_min_le_init _ _, init_le_foldl_max _ _⟩
    · exact ⟨foldl_min_le_mem h' _, mem_le_foldl_max h' _⟩

theorem eventAt_mem {midi : MidiObj} {i j : ℕ} {e : MEvent}
    (h : eventAt midi i j = some e) : e ∈ midi.data.tracks.flatten := by
  rw [eventAt] at h
  rcases ho : midi.data.tracks[i]? with _ | t
  · rw [ho] at h; cases h
  · rw [ho] at h
    exact List.mem_flatten.2 ⟨t, List.getElem?_mem ho, List.getElem?_mem h⟩

theorem mem_noteOnVelocities {midi : MidiObj} {i j : ℕ} {dt c n : ℤ} {v : ℚ}
    (h : eventAt midi i j = some (MEvent.noteOn dt c n v)) (hv : 0 < v) :
    v ∈ noteOnVelocities midi c := by
  rw [noteOnVelocities]
  exact List.mem_filterMap.2 ⟨_, eventAt_mem h, by simp [oneVel, hv]⟩

theorem observedRange_of_mem {midi : MidiObj} {c : ℤ} {v : ℚ}
    (h : v ∈ noteOnVelocities midi c) :
    ∃ mn mx, observedRange midi c = some (mn, mx) := by
  rw [observedRange]
  rcases hl : noteOnVelocities midi c with _ | ⟨v0, vs⟩
  · rw [hl] at h; cases h
  · exact ⟨_, _, rfl⟩

theorem eventAt_normalizeVelocities (midi : MidiObj) (opts : VelocitiesOptions)
    (i j : ℕ) :
    eventAt (normalizeVelocities midi opts) i j
      = (eventAt midi i j).map (specScaleEvent midi opts) := by
  rw [normalizeVelocities, eventAt, eventAt, setTracks]
  dsimp only
  rw [List.getElem?_map]
  rcases midi.data.tracks[i]? with _ | t
  · rfl
  · show (t.map (scaleEvent (channelVelocities midi) opts))[j]?
        = (t[j]?).map (specScaleEvent midi opts)
    rw [List.getElem?_map]
    cases t[j]? <;> simp [scaleEvent_eq_spec]

theorem specScaleEvent_noteOn {midi : MidiObj} {opts : VelocitiesOptions}
    {dt c n : ℤ} {v mn mx : ℚ} (hv : 0 < v)
    (hobs : observedRange midi c = some (mn, mx)) (hne : mn ≠ mx) :
    specScaleEvent midi opts (MEvent.noteOn dt c n v)
      = MEvent.noteOn dt c n
          ((jround ((v - mn) / (mx - mn) * (opts.max - opts.min) + opts.min) : ℤ) : ℚ) := by
  rw [specScaleEvent, if_pos hv, hobs]
  dsimp only
  rw [if_neg hne]

/-- C7 counterexample — with the config's own default options `min = 0.1`,
`max = 1.0` (valid: `0 ≤ min ≤ max ≤ 127`) and a channel observing velocities
10 < 20, the event with velocity 10 is rescaled to `round(0.1) = 0`, which lies
below `min`: the normalized velocity does NOT lie in `[min, max]`. -/
theorem range_containment_cex :
    eventAt (normalizeVelocities exRangeM exFracOpts) 0 0
        = some (MEvent.noteOn 0 1 60 0)
      ∧ observedRange exRangeM 1 = some (10, 20)
      ∧ (0 : ℚ) ≤ exFracOpts.min ∧ exFracOpts.min ≤ exFracOpts.max
      ∧ exFracOpts.max ≤ 127
      ∧ ¬ exFracOpts.min ≤ (MEvent.noteOn 0 1 60 0).velocity := by
  refine ⟨?_, rfl, by norm_num [exFracOpts], by norm_num [exFracOpts],
    by norm_num [exFracOpts], by norm_num [exFracOpts, MEvent.velocity]⟩
  rw [eventAt_normalizeVelocities]
  have h : eventAt exRangeM 0 0 = some (MEvent.noteOn 0 1 60 10) := rfl
  rw [h]
  show some (specScaleEvent exRangeM exFracOpts (MEvent.noteOn 0 1 60 10)) = _
  have hobs : observedRange exRangeM 1 = some (10, 20) := rfl
  rw [@specScaleEvent_noteOn exRangeM exFracOpts 0 1 60 10 10 20 (by norm_num) hobs
    (by norm_num)]
  norm_num [exFracOpts, jround, Int.floor_eq_iff]

/-- C7 (amended) — Range containment: for valid options `0 ≤ min ≤ max ≤ 127` and a
`NoteOn` with velocity > 0 on a channel whose observed range has
`observedMin < observedMax`, the normalized velocity lies in
`[round(min), round(max)]` (which is `[min, max]` itself whenever `min` and `max`
are integers; for fractional bounds the unclamped rounding can exit `[min, max]`,
as the counterexample shows). -/
theorem range_containment (midi : MidiObj) (opts : VelocitiesOptions)
    (i j : ℕ) (dt c n : ℤ) (v mn mx : ℚ)
    (_h0 : 0 ≤ opts.min) (h1 : opts.min ≤ opts.max) (_h2 : opts.max ≤ 127)
    (he : eventAt midi i j = some (MEvent.noteOn dt c n v)) (hv : 0 < v)
    (hobs : observedRange midi c = some (mn, mx)) (hlt : mn < mx) :
    eventAt (normalizeVelocities midi opts) i j
        = some (specScaleEvent midi opts (MEvent.noteOn dt c n v))
      ∧ ((jround opts.min : ℤ) : ℚ)
          ≤ (specScaleEvent midi opts (MEvent.noteOn dt c n v)).velocity
      ∧ (specScaleEvent midi opts (MEvent.noteOn dt c n v)).velocity
          ≤ ((jround opts.max : ℤ) : ℚ) := by
  have hmem := mem_noteOnVelocities he hv
  obtain ⟨hmnv, hvmx⟩ := observedRange_bounds hobs hmem
  refine ⟨?_, ?_, ?_⟩
  · rw [eventAt_normalizeVelocities, he]; rfl
  all_goals
    rw [specScaleEvent_noteOn hv hobs hlt.ne]
    simp only [MEvent.velocity]
  all_goals
    have hd : (0 : ℚ) < mx - mn := by linarith
    have hr0 : 0 ≤ (v - mn) / (mx - mn) := div_nonneg (by linarith) hd.le
    have hr1 : (v - mn) / (mx - mn) ≤ 1 := by rw [div_le_one hd]; linarith
  · have hx1 : opts.min ≤ (v - mn) / (mx - mn) * (opts.max - opts.min) + opts.min := by
      nlinarith
    exact_mod_cast jround_mono hx1
  · have hx2 : (v - mn) / (mx - mn) * (opts.max - opts.min) + opts.min ≤ opts.max := by
      nlinarith
    exact_mod_cast jround_mono hx2

/-- C7 witness: with `min = 0, max = 127` and observed range (10, 20), the first
event of `exRangeM` normalizes into `[0, 127]`. -/
theorem range_containment_witness :
    eventAt (normalizeVelocities exRangeM { min := 0, max := 127 }) 0 0
        = some (specScaleEvent exRangeM { min := 0, max := 127 }
            (MEvent.noteOn 0 1 60 10))
      ∧ ((jround (0 : ℚ) : ℤ) : ℚ)
          ≤ (specScaleEvent exRangeM { min := 0, max := 127 }
              (MEvent.noteOn 0 1 60 10)).velocity
      ∧ (specScaleEvent exRangeM { min := 0, max := 127 }
            (MEvent.noteOn 0 1 60 10)).velocity
          ≤ ((jround (127 : ℚ) : ℤ) : ℚ) :=
  range_containment exRangeM { min := 0, max := 127 } 0 0 0 1 60 10 10 20
    (by norm_num) (by norm_num) (by norm_num) rfl (by norm_num)
    rfl (by norm_num)

/-- C8 — Monotonicity of normalization: two `NoteOn`s on the same channel with
original velocities `0 < v1 < v2` normalize to velocities with
`normalized(v1) ≤ normalized(v2)` (given the contract `min ≤ max` of §4.2). -/
theorem monotone_normalization (midi : MidiObj) (opts : VelocitiesOptions)
    (i1 j1 i2 j2 : ℕ) (dt1 dt2 c n1 n2 : ℤ) (v1 v2 : ℚ)
    (h1 : opts.min ≤ opts.max)
    (he1 : eventAt midi i1 j1 = some (MEvent.noteOn dt1 c n1 v1))
    (he2 : eventAt midi i2 j2 = some (MEvent.noteOn dt2 c n2 v2))
    (hv1 : 0 < v1) (hlt : v1 < v2) :
    eventAt (normalizeVelocities midi opts) i1 j1
        = some (specScaleEvent midi opts (MEvent.noteOn dt1 c n1 v1))
      ∧ eventAt (normalizeVelocities midi opts) i2 j2
          = some (specScaleEvent midi opts (MEvent.noteOn dt2 c n2 v2))
      ∧ (specScaleEvent midi opts (MEvent.noteOn dt1 c n1 v1)).velocity
          ≤ (specScaleEvent midi opts (MEvent.noteOn dt2 c n2 v2)).velocity := by
  have hv2 : 0 < v2 := lt_trans hv1 hlt
  have hm1 := mem_noteOnVelocities he1 hv1
  have hm2 := mem_noteOnVelocities he2 hv2
  obtain ⟨mn, mx, hobs⟩ := observedRange_of_mem hm1
  obtain ⟨hb1, hb1'⟩ := observedRange_bounds hobs hm1
  obtain ⟨hb2, hb2'⟩ := observedRange_bounds hobs hm2
  have hmnmx : mn < mx := by linarith
  refine ⟨?_, ?_, ?_⟩
  · rw [eventAt_normalizeVelocities, he1]; rfl
  · rw [eventAt_normalizeVelocities, he2]; rfl
  · rw [specScaleEvent_noteOn hv1 hobs hmnmx.ne, specScaleEvent_noteOn hv2 hobs hmnmx.ne]
    simp only [MEvent.velocity]
    have hd : (0 : ℚ) < mx - mn := by linarith
    have hq : (v1 - mn) / (mx - mn) ≤ (v2 - mn) / (mx - mn) := by
      rw [div_le_div_iff₀ hd hd]
      nlinarith
    have hD : (0 : ℚ) ≤ opts.max - opts.min := by linarith
    have hx := mul_le_mul_of_nonneg_right hq hD
    exact_mod_cast jround_mono (by linarith)

/-- C8 witness: velocities 10 < 20 on channel 1 of `exRangeM` stay ordered after
normalization into `[0, 127]`. -/
theorem monotone_normalization_witness :
    eventAt (normalizeVelocities exRangeM { min := 0, max := 127 }) 0 0
        = some (specScaleEvent exRangeM { min := 0, max := 127 }
            (MEvent.noteOn 0 1 60 10))
      ∧ eventAt (normalizeVelocities exRangeM { min := 0, max := 127 }) 0 1
          = some (specScaleEvent exRangeM { min := 0, max := 127 }
              (MEvent.noteOn 2 1 62 20))
      ∧ (specScaleEvent exRangeM { min := 0, max := 127 }
            (MEvent.noteOn 0 1 60 10)).velocity
          ≤ (specScaleEvent exRangeM { min := 0, max := 127 }
              (MEvent.noteOn 2 1 62 20)).velocity :=
  monotone_normalization exRangeM { min := 0, max := 127 } 0 0 0 1 0 2 1 60 62 10 20
    (by norm_num) rfl rfl (by norm_num) (by norm_num)

/-! ## Lemmas: removeSilent splices in place and removes every silent noteOn -/

theorem removeFirstNoteOff_sublist (note ch : ℤ) :
    ∀ l : List MEvent, List.Sublist (removeFirstNoteOff note ch l) l
  | [] => List.Sublist.refl _
  | e :: rest => by
    rw [removeFirstNoteOff]
    split
    · exact List.sublist_cons_self e rest
    · exact List.Sublist.cons₂ e (removeFirstNoteOff_sublist note ch rest)

theorem pruneAt_sublist (t : List MEvent) (i : ℕ) : List.Sublist (pruneAt t i) t := by
  cases hcase : t[i]? with
  | none => rw [pruneAt, hcase]
  | some e =>
    cases e with
    | noteOn dt c n v =>
      simp only [pruneAt, hcase]
      by_cases hv : v = 0
      · rw [if_pos hv]
        obtain ⟨hi, _⟩ := List.getElem?_eq_some.mp hcase
        have hsub : List.Sublist (removeFirstNoteOff n c (t.drop (i + 1))) (t.drop i) := by
          rw [List.drop_eq_getElem_cons hi]
          exact (removeFirstNoteOff_sublist n c _).trans (List.sublist_cons_self _ _)
        have happ := hsub.append_left (t.take i)
        rw [List.take_append_drop i t] at happ
        exact happ
      · rw [if_neg hv]
    | noteOff dt c n v => rw [pruneAt, hcase]
    | meta dt p => rw [pruneAt, hcase]
    | channelOther dt c p => rw [pruneAt, hcase]

theorem pruneDown_sublist : ∀ (i : ℕ) (t : List MEvent), List.Sublist (pruneDown i t) t
  | 0, _ => List.Sublist.refl _
  | i + 1, t => (pruneDown_sublist i (pruneAt t i)).trans (pruneAt_sublist t i)

theorem removeSilentTrack_sublist (t : List MEvent) :
    List.Sublist (removeSilentTrack t) t :=
  pruneDown_sublist t.length t

theorem sublist_all {l₁ l₂ : List MEvent} {p : MEvent → Bool} (h : List.Sublist l₁ l₂)
    (hall : l₂.all p = true) : l₁.all p = true := by
  simp only [List.all_eq_true] at hall ⊢
  exact fun e he => hall e (h.subset he)

theorem pruneAt_drop_all (t : List MEvent) (i : ℕ)
    (h : ((t.drop (i + 1)).all fun e => !isSilentOn e) = true) :
    (((pruneAt t i).drop i).all fun e => !isSilentOn e) = true := by
  cases hcase : t[i]? with
  | none =>
    rw [pruneAt, hcase]
    have hlen : t.length ≤ i := List.getElem?_eq_none_iff.mp hcase
    rw [List.drop_eq_nil_of_le hlen]
    rfl
  | some e =>
    obtain ⟨hi, hgi⟩ := List.getElem?_eq_some.mp hcase
    cases e with
    | noteOn dt c n v =>
      by_cases hv : v = 0
      · simp only [pruneAt, hcase]
        rw [if_pos hv]
        have hlen : (t.take i).length = i := by rw [List.length_take]; omega
        rw [List.drop_left' hlen]
        exact sublist_all (removeFirstNoteOff_sublist n c _) h
      · simp only [pruneAt, hcase]
        rw [if_neg hv]
        rw [List.drop_eq_getElem_cons hi, List.all_cons, hgi]
        simpa [isSilentOn, hv] using h
    | noteOff dt c n v =>
      rw [pruneAt, hcase, List.drop_eq_getElem_cons hi, List.all_cons, hgi]
      simpa [isSilentOn] using h
    | meta dt p =>
      rw [pruneAt, hcase, List.drop_eq_getElem_cons hi, List.all_cons, hgi]
      simpa [isSilentOn] using h
    | channelOther dt c p =>
      rw [pruneAt, hcase, List.drop_eq_getElem_cons hi, List.all_cons, hgi]
      simpa [isSilentOn] using h

theorem pruneDown_all :
    ∀ (i : ℕ) (t : List MEvent), ((t.drop i).all fun e => !isSilentOn e) = true →
      ((pruneDown i t).all fun e => !isSilentOn e) = true := by
  intro i
  induction i with
  | zero => intro t h; simpa using h
  | succ i ih =>
    intro t h
    rw [pruneDown]
    exact ih _ (pruneAt_drop_all t i h)

theorem removeSilentTrack_all (t : List MEvent) :
    ((removeSilentTrack t).all fun e => !isSilentOn e) = true :=
  pruneDown_all t.length t (by rw [List.drop_length]; rfl)

theorem specPrune_nil : specPrune [] = [] := by rw [specPrune]

theorem specPrune_noteOn (dt c n : ℤ) (v : ℚ) (rest : List MEvent) :
    specPrune (MEvent.noteOn dt c n v :: rest)
      = if v = 0 then specPrune (removeFirstNoteOff n c rest)
        else MEvent.noteOn dt c n v :: specPrune rest := by
  rw [specPrune]

theorem specPrune_noteOff (dt c n : ℤ) (v : ℚ) (rest : List MEvent) :
    specPrune (MEvent.noteOff dt c n v :: rest)
      = MEvent.noteOff dt c n v :: specPrune rest := by
  rw [specPrune]
  simp

theorem specPrune_meta (dt : ℤ) (p : ℕ) (rest : List MEvent) :
    specPrune (MEvent.meta dt p :: rest) = MEvent.meta dt p :: specPrune rest := by
  rw [specPrune]
  simp

theorem specPrune_chOther (dt c : ℤ) (p : ℕ) (rest : List MEvent) :
    specPrune (MEvent.channelOther dt c p :: rest)
      = MEvent.channelOther dt c p :: specPrune rest := by
  rw [specPrune]
  simp

theorem pruneAt_cons_succ (e : MEvent) (rest : List MEvent) (i : ℕ) :
    pruneAt (e :: rest) (i + 1) = e :: pruneAt rest i := by
  simp only [pruneAt, List.getElem?_cons_succ]
  cases h : rest[i]? with
  | none => simp
  | some ev =>
    cases ev with
    | noteOn dt c n v =>
      by_cases hv : v = 0
      · simp [hv, List.take_succ_cons, List.drop_succ_cons]
      · simp [hv]
    | noteOff dt c n v => simp
    | meta dt p => simp
    | channelOther dt c p => simp

theorem pruneDown_cons :
    ∀ (i : ℕ) (e : MEvent) (rest : List MEvent),
      pruneDown (i + 1) (e :: rest) = pruneAt (e :: pruneDown i rest) 0
  | 0, e, rest => rfl
  | i + 1, e, rest => by
    rw [pruneDown, pruneAt_cons_succ, pruneDown_cons i e (pruneAt rest i)]
    rfl

theorem removeSilentTrack_cons (e : MEvent) (rest : List MEvent) :
    removeSilentTrack (e :: rest) = pruneAt (e :: removeSilentTrack rest) 0 := by
  rw [removeSilentTrack, removeSilentTrack]
  exact pruneDown_cons rest.length e rest

theorem pruneAt_zero_silent (dt c n : ℤ) (l : List MEvent) :
    pruneAt (MEvent.noteOn dt c n 0 :: l) 0 = removeFirstNoteOff n c l := by
  simp [pruneAt]

theorem pruneAt_zero_loud (dt c n : ℤ) (v : ℚ) (l : List MEvent) (hv : ¬v = 0) :
    pruneAt (MEvent.noteOn dt c n v :: l) 0 = MEvent.noteOn dt c n v :: l := by
  simp [pruneAt, hv]

theorem removeFirstNoteOff_comm (n₁ c₁ n₂ c₂ : ℤ) :
    ∀ l : List MEvent,
      removeFirstNoteOff n₁ c₁ (removeFirstNoteOff n₂ c₂ l)
        = removeFirstNoteOff n₂ c₂ (removeFirstNoteOff n₁ c₁ l) := by
  intro l
  induction l with
  | nil => rfl
  | cons e rest ih =>
    by_cases h2 : isNoteOffMatch n₂ c₂ e = true
    · by_cases h1 : isNoteOffMatch n₁ c₁ e = true
      · have hkey : n₁ = n₂ ∧ c₁ = c₂ := by
          cases e with
          | noteOff dt cc nn v =>
            simp only [isNoteOffMatch, Bool.and_eq_true, decide_eq_true_eq] at h1 h2
            exact ⟨by omega, by omega⟩
          | noteOn dt cc nn v => simp [isNoteOffMatch] at h1
          | meta dt p => simp [isNoteOffMatch] at h1
          | channelOther dt cc p => simp [isNoteOffMatch] at h1
        obtain ⟨rfl, rfl⟩ := hkey
        rfl
      · simp [removeFirstNoteOff, h1, h2]
    · by_cases h1 : isNoteOffMatch n₁ c₁ e = true
      · simp [removeFirstNoteOff, h1, h2]
      · simp [removeFirstNoteOff, h1, h2, ih]

theorem removeFirstNoteOff_length_le (x y : ℤ) (l : List MEvent) :
    (removeFirstNoteOff x y l).length ≤ l.length := by
  induction l with
  | nil => simp [removeFirstNoteOff]
  | cons a as ih =>
    rw [removeFirstNoteOff]
    split
    · simp
    · simpa using ih

theorem isNoteOffMatch_noteOn (n c dt cc nn : ℤ) (v : ℚ) :
    isNoteOffMatch n c (MEvent.noteOn dt cc nn v) = false := rfl

theorem removeFirstNoteOff_specPrune (n c : ℤ) (l : List MEvent) :
    removeFirstNoteOff n c (specPrune l) = specPrune (removeFirstNoteOff n c l) := by
  have key : ∀ (N : ℕ) (l : List MEvent), l.length ≤ N →
      removeFirstNoteOff n c (specPrune l) = specPrune (removeFirstNoteOff n c l) := by
    intro N
    induction N with
    | zero =>
      intro l hl
      have : l = [] := List.length_eq_zero.mp (Nat.le_zero.mp hl)
      subst this
      simp [specPrune_nil, removeFirstNoteOff]
    | succ N ih =>
      intro l hl
      cases l with
      | nil => simp [specPrune_nil, removeFirstNoteOff]
      | cons e rest =>
        have hr : rest.length ≤ N := by
          simp only [List.length_cons] at hl
          omega
        cases e with
        | noteOn dt cc nn v =>
          have hrw : removeFirstNoteOff n c (MEvent.noteOn dt cc nn v :: rest)
              = MEvent.noteOn dt cc nn v :: removeFirstNoteOff n c rest := by
            rw [removeFirstNoteOff, isNoteOffMatch_noteOn]
            simp
          by_cases hv : v = 0
          · rw [specPrune_noteOn, if_pos hv]
            rw [ih _ (le_trans (removeFirstNoteOff_length_le nn cc rest) hr)]
            rw [removeFirstNoteOff_comm]
            rw [hrw, specPrune_noteOn, if_pos hv]
          · rw [specPrune_noteOn, if_neg hv]
            rw [hrw, specPrune_noteOn, if_neg hv]
            rw [removeFirstNoteOff, isNoteOffMatch_noteOn]
            simp only [Bool.false_eq_true, if_false]
            rw [ih rest hr]
        | noteOff dt cc nn v =>
          by_cases hm : isNoteOffMatch n c (MEvent.noteOff dt cc nn v) = true
          · rw [specPrune_noteOff]
            rw [removeFirstNoteOff, if_pos hm, removeFirstNoteOff, if_pos hm]
          · rw [specPrune_noteOff]
            rw [removeFirstNoteOff, if_neg hm, removeFirstNoteOff, if_neg hm]
            rw [specPrune_noteOff, ih rest hr]
        | meta dt p =>
          rw [specPrune_meta, removeFirstNoteOff, removeFirstNoteOff]
          have hm : isNoteOffMatch n c (MEvent.meta dt p) = false := rfl
          rw [hm]
          simp only [Bool.false_eq_true, if_false]
          rw [specPrune_meta, ih rest hr]
        | channelOther dt cc p =>
          rw [specPrune_chOther, removeFirstNoteOff, removeFirstNoteOff]
          have hm : isNoteOffMatch n c (MEvent.channelOther dt cc p) = false := rfl
          rw [hm]
          simp only [Bool.false_eq_true, if_false]
          rw [specPrune_chOther, ih rest hr]
  exact key l.length l (le_refl _)

theorem removeSilentTrack_eq_specPrune : ∀ t : List MEvent,
    removeSilentTrack t = specPrune t := by
  intro t
  induction t with
  | nil =>
    rw [specPrune_nil]
    rfl
  | cons e rest ih =>
    rw [removeSilentTrack_cons, ih]
    cases e with
    | noteOn dt c n v =>
      by_cases hv : v = 0
      · subst hv
        rw [pruneAt_zero_silent, removeFirstNoteOff_specPrune, specPrune_noteOn]
        simp
      · rw [pruneAt_zero_loud dt c n v _ hv, specPrune_noteOn, if_neg hv]
    | noteOff dt c n v =>
      rw [specPrune_noteOff]
      simp [pruneAt]
    | meta dt p =>
      rw [specPrune_meta]
      simp [pruneAt]
    | channelOther dt c p =>
      rw [specPrune_chOther]
      simp [pruneAt]

theorem forall₂_sublist_map :
    ∀ l : List (List MEvent), List.Forall₂ List.Sublist (l.map removeSilentTrack) l
  | [] => List.Forall₂.nil
  | t :: ts => List.Forall₂.cons (removeSilentTrack_sublist t) (forall₂_sublist_map ts)

/-- C4 — Silence Pruner: for EVERY `MidiObj`, (i) `removeSilent` equals the spec-side
pruner `specPrune` applied to every track — each `NoteOn` with velocity 0 is removed
together with the nearest subsequent `NoteOff` of the same note number and channel
among the not-yet-removed events, an orphan is removed alone with no error, and
nothing else is removed (the backward splice loop of the source provably computes
this forward description); (ii) every resulting track is a sublist of the original —
removed events are dropped in place, each kept event keeps its own `deltaTime` and
relative order, deltas are never re-accumulated; (iii) no `NoteOn` with velocity 0
survives; and on concrete tracks: the spec's example pair
`[NoteOn(vel=0, note=60, ch=1), NoteOff(note=60, ch=1)]` prunes to the empty track,
an orphan silent `NoteOn` is removed alone, and a silent `NoteOn` followed by
several `NoteOff`s loses exactly the nearest subsequent matching one. -/
theorem removeSilent_spec :
    (∀ midi : MidiObj,
        removeSilent midi = setTracks midi (midi.data.tracks.map specPrune)
      ∧ List.Forall₂ List.Sublist (removeSilent midi).data.tracks midi.data.tracks
      ∧ ((removeSilent midi).data.tracks.all fun t =>
          t.all fun e => !isSilentOn e) = true)
    ∧ removeSilentTrack exPairTrack = []
    ∧ removeSilentTrack exOrphanTrack
        = [MEvent.noteOff 3 2 60 64, MEvent.noteOff 4 1 61 64]
    ∧ removeSilentTrack exNearestTrack
        = [MEvent.noteOff 1 2 60 0, MEvent.noteOff 2 1 61 0, MEvent.noteOff 4 1 60 0] := by
  refine ⟨fun midi => ⟨?_, ?_, ?_⟩, rfl, rfl, rfl⟩
  · rw [removeSilent]
    congr 1
    simp [removeSilentTrack_eq_specPrune]
  · show List.Forall₂ List.Sublist (midi.data.tracks.map removeSilentTrack) _
    exact forall₂_sublist_map _
  · show ((midi.data.tracks.map removeSilentTrack).all _) = true
    rw [List.all_map]
    simp only [List.all_eq_true]
    intro t _
    exact removeSilentTrack_all t

/-! ## Lemmas and claims: normalizeChannels -/

/-- C2 — the spec's exclusivity example evaluated on the code: rules
`[{patterns:["piano"], channel:1, exclusive:true}, {patterns:["."], channel:5}]`
on a track named "Grand Piano".  The code never reads `exclusive`, so the second,
catch-all rule overwrites the first and the final channel is 5, not the 1 required
by the claim and by the config schema's documentation of `exclusive`. -/
theorem exclusive_rule_ignored :
    (normalizeChannels exPianoM exPianoRules).data.tracks = [[MEvent.noteOn 0 5 60 64]]
      ∧ ([[MEvent.noteOn 0 5 60 64]] : List (List MEvent))
          ≠ [[MEvent.noteOn 0 1 60 64]] := by
  exact ⟨rfl, by simp⟩

theorem ruleMatches_blank {inst tn : Option String}
    (hi : inst = none ∨ inst = some "") (ht : tn = none ∨ tn = some "")
    (rule : MatchRule) : ruleMatches inst tn rule = false := by
  have hti : truthy inst = false := by rcases hi with rfl | rfl <;> rfl
  have htt : truthy tn = false := by rcases ht with rfl | rfl <;> rfl
  cases rule with
  | patterns pats flags ch ex => simp [ruleMatches, nameTest, hti, htt]
  | includes incs ch ex => simp [ruleMatches, nameIncl, hti, htt]

theorem applyRuleFrom_getElem? (inst tn : ℕ → Option String) (rule : MatchRule) :
    ∀ (ts : List (List MEvent)) (k i : ℕ),
      (applyRuleFrom inst tn rule k ts)[i]? = (ts[i]?).map fun t =>
        if ruleMatches (inst (k + i)) (tn (k + i)) rule then
          t.map (MEvent.setChannel rule.channel)
        else t
  | [], k, i => by simp [applyRuleFrom]
  | t :: ts, k, 0 => by simp [applyRuleFrom]
  | t :: ts, k, i + 1 => by
    simp only [applyRuleFrom, List.getElem?_cons_succ]
    rw [applyRuleFrom_getElem? inst tn rule ts (k + 1) i]
    have harith : k + 1 + i = k + (i + 1) := by omega
    rw [harith]

/-- C10 — blank names never match: a track whose instrument-name and track-name
entries are both absent or the empty string is matched by no rule at all — the
JavaScript truthiness guard `name && ...` short-circuits before the regex or
substring test runs, even for patterns such as `""` or `".*"` — so that track's
events are never rewritten by `normalizeChannels`. -/
theorem normalizeChannels_blank (midi : MidiObj) (options : ChannelsOptions) (ti : ℕ)
    (hi : midi.instrumentNames ti = none ∨ midi.instrumentNames ti = some "")
    (ht : midi.trackNames ti = none ∨ midi.trackNames ti = some "") :
    ((normalizeChannels midi options).data.tracks)[ti]? = (midi.data.tracks)[ti]? := by
  rw [normalizeChannels]
  show (options.rules.foldl _ midi.data.tracks)[ti]? = _
  have key : ∀ (rules : List MatchRule) (ts : List (List MEvent)),
      ((rules.foldl
        (fun ts rule => applyRuleFrom midi.instrumentNames midi.trackNames rule 0 ts)
        ts)[ti]?) = ts[ti]? := by
    intro rules
    induction rules with
    | nil => intro ts; rfl
    | cons r rs ih =>
      intro ts
      rw [List.foldl_cons, ih, applyRuleFrom_getElem?]
      rw [Nat.zero_add, ruleMatches_blank hi ht r]
      simp
  exact key options.rules midi.data.tracks

/-- C10 witness: a one-track file with no names at all is untouched even by the
catch-all rule list of the exclusivity example. -/
theorem normalizeChannels_blank_witness :
    ((normalizeChannels (mkMidi [[MEvent.noteOn 0 2 60 64]]) exPianoRules).data.tracks)[0]?
      = ((mkMidi [[MEvent.noteOn 0 2 60 64]]).data.tracks)[0]? :=
  normalizeChannels_blank (mkMidi [[MEvent.noteOn 0 2 60 64]]) exPianoRules 0
    (Or.inl rfl) (Or.inl rfl)

/-! ## Lemmas and claims: addBuffers -/

theorem truthyNum_some {s : ℚ} (hs : s ≠ 0) : truthyNum (some s) = true := by
  simp [truthyNum, hs]

theorem addBuffers_start_eq (midi : MidiObj) (s : ℚ) (hs : s ≠ 0) :
    addBuffers midi { startBuffer := some s, endBuffer := none }
      = some (setTracks midi (midi.data.tracks.map fun t =>
          t.map (MEvent.addDelta (jround (s * tpbOf midi))))) := by
  rw [addBuffers]
  simp [truthyNum_some hs, truthyNum, hs]

/-- C1 counterexample — `startBuffer = 1` second with `ticksPerBeat = 480` on a
two-event track: the code adds 480 ticks to the `deltaTime` of EVERY event (the
second event moves from delta 0 to delta 480), not only to the first event as the
claim requires. -/
theorem start_buffer_cex :
    (addBuffers exStartM { startBuffer := some 1, endBuffer := none }).map
        (fun m => m.data.tracks)
      = some [[MEvent.noteOn 480 1 60 64, MEvent.noteOff 480 1 60 64]]
    ∧ (some [[MEvent.noteOn 480 1 60 64, MEvent.noteOff 480 1 60 64]] :
          Option (List (List MEvent)))
      ≠ some [[MEvent.noteOn 480 1 60 64, MEvent.noteOff 0 1 60 64]] := by
  constructor
  · rw [addBuffers_start_eq exStartM 1 one_ne_zero]
    show some _ = _
    have htpb : tpbOf exStartM = 480 := rfl
    rw [htpb]
    have hjr : jround ((1 : ℚ) * 480) = 480 := by
      norm_num [jround, Int.floor_eq_iff]
    simp only [hjr]
    simp [exStartM, mkMidi, setTracks, MEvent.addDelta]
  · simp

/-- C1 (amended) — Buffer Inserter start buffer: for `startBufferSeconds > 0` (and no
end buffer), `addBuffers` increases the `deltaTime` of EVERY event of every track by
exactly `round(startBufferSeconds * ticksPerBeat)` — not only the first event of each
track: since delta times are relative, this stretches every inter-event gap rather
than shifting each track uniformly. -/
theorem addBuffers_startBuffer (midi : MidiObj) (s : ℚ) (hs : 0 < s) :
    addBuffers midi { startBuffer := some s, endBuffer := none }
      = some (setTracks midi (midi.data.tracks.map fun t =>
          t.map (MEvent.addDelta (jround (s * tpbOf midi))))) :=
  addBuffers_start_eq midi s hs.ne'

/-- C1 witness: the amended start-buffer law at `exStartM`, one second. -/
theorem addBuffers_startBuffer_witness :
    addBuffers exStartM { startBuffer := some 1, endBuffer := none }
      = some (setTracks exStartM (exStartM.data.tracks.map fun t =>
          t.map (MEvent.addDelta (jround (1 * tpbOf exStartM))))) :=
  addBuffers_startBuffer exStartM 1 (by norm_num)

theorem isEmpty_eq_false_of_ne_nil {l : List (List MEvent)} (h : l ≠ []) :
    l.isEmpty = false := by
  cases l with
  | nil => exact absurd rfl h
  | cons t ts => rfl

theorem addBuffers_end_eq (midi : MidiObj) (s : ℚ) (le : MEvent) (k : ℕ)
    (hs : s ≠ 0) (hne : midi.data.tracks ≠ [])
    (hle : (midi.data.tracks.getD (longestIdx midi.data.tracks) []).getLast? = some le)
    (hk : findLastIdx MEvent.isNote
        (midi.data.tracks.getD (longestIdx midi.data.tracks) []) = some k) :
    addBuffers midi { startBuffer := none, endBuffer := some s }
      = some (setTracks midi (midi.data.tracks.set (longestIdx midi.data.tracks)
          ((midi.data.tracks.getD (longestIdx midi.data.tracks) []).take (k + 1)
            ++ [MEvent.noteOn (le.deltaTime + jround (s * tpbOf midi))
                  (chooseChannel
                    (midi.data.tracks.getD (longestIdx midi.data.tracks) [])) 60 0,
                MEvent.noteOff (le.deltaTime + jround (s * tpbOf midi) + 1)
                  (chooseChannel
                    (midi.data.tracks.getD (longestIdx midi.data.tracks) [])) 60 0]
            ++ (midi.data.tracks.getD (longestIdx midi.data.tracks) []).drop (k + 1)))) := by
  rw [addBuffers]
  simp only [truthyNum, truthyNum_some hs, if_true, if_false, Option.getD_some,
    isEmpty_eq_false_of_ne_nil hne, Bool.false_eq_true]
  simp only [hs, if_false, if_true, ite_false, ite_true]
  rw [endSplice]
  simp only [hle, hk]

/-- C5 counterexample — a file whose longest track is non-empty but contains no
note-on/note-off event (a single meta event): `endBuffer = 1` inserts nothing
(`findLastIndex` returns -1 and the splice is skipped), so the track still has
1 event instead of the 1 + 2 the claim requires. -/
theorem end_buffer_cex :
    (addBuffers exMetaM { startBuffer := none, endBuffer := some 1 }).map
        (fun m => (m.data.tracks.getD 0 []).length)
      = some 1
    ∧ (some 1 : Option ℕ) ≠ some 3 := by
  constructor
  · rfl
  · simp

/-- C5 (amended) — Buffer Inserter end buffer: for `endBufferSeconds > 0` and a
longest track (first track of greatest event count) that contains at least one
note-on/note-off event (at last index `k`), `addBuffers` splices exactly two
synthetic events immediately after index `k`: a `NoteOn(note=60, velocity=0,
deltaTime = lastEvent.deltaTime + round(endBufferSeconds * ticksPerBeat), channel)`
followed by a `NoteOff` one tick later, where `lastEvent` is the last event of the
track overall and `channel` is the channel of the track's first channel-bearing
event (1 if there is none); every other track is unchanged.  (If the longest track
has no note event, nothing is inserted — the unamended claim fails there, see the
counterexample.) -/
theorem addBuffers_endBuffer (midi : MidiObj) (s : ℚ) (le : MEvent) (k : ℕ)
    (hs : 0 < s) (hne : midi.data.tracks ≠ [])
    (hle : (midi.data.tracks.getD (longestIdx midi.data.tracks) []).getLast? = some le)
    (hk : findLastIdx MEvent.isNote
        (midi.data.tracks.getD (longestIdx midi.data.tracks) []) = some k) :
    addBuffers midi { startBuffer := none, endBuffer := some s }
      = some (setTracks midi (midi.data.tracks.set (longestIdx midi.data.tracks)
          ((midi.data.tracks.getD (longestIdx midi.data.tracks) []).take (k + 1)
            ++ [MEvent.noteOn (le.deltaTime + jround (s * tpbOf midi))
                  (chooseChannel
                    (midi.data.tracks.getD (longestIdx midi.data.tracks) [])) 60 0,
                MEvent.noteOff (le.deltaTime + jround (s * tpbOf midi) + 1)
                  (chooseChannel
                    (midi.data.tracks.getD (longestIdx midi.data.tracks) [])) 60 0]
            ++ (midi.data.tracks.getD (longestIdx midi.data.tracks) []).drop (k + 1))))
    ∧ ∀ m', addBuffers midi { startBuffer := none, endBuffer := some s } = some m' →
        ∀ j, j ≠ longestIdx midi.data.tracks →
          m'.data.tracks[j]? = midi.data.tracks[j]? := by
  have heq := addBuffers_end_eq midi s le k hs.ne' hne hle hk
  refine ⟨heq, ?_⟩
  intro m' hm j hj
  rw [heq] at hm
  obtain rfl := Option.some.inj hm
  show (midi.data.tracks.set (longestIdx midi.data.tracks) _)[j]? = _
  exact List.getElem?_set_ne (fun h => hj h.symm)

/-- C5 witness: on `exEndM` (longest track index 1, last note event at index 2,
last event the trailing meta at delta 9, first channel 4) the two ghost events are
spliced in before the trailing meta event and track 0 is untouched. -/
theorem addBuffers_endBuffer_witness :
    addBuffers exEndM { startBuffer := none, endBuffer := some 1 }
      = some (setTracks exEndM (exEndM.data.tracks.set (longestIdx exEndM.data.tracks)
          ((exEndM.data.tracks.getD (longestIdx exEndM.data.tracks) []).take (2 + 1)
            ++ [MEvent.noteOn ((MEvent.meta 9 2).deltaTime + jround (1 * tpbOf exEndM))
                  (chooseChannel
                    (exEndM.data.tracks.getD (longestIdx exEndM.data.tracks) [])) 60 0,
                MEvent.noteOff
                  ((MEvent.meta 9 2).deltaTime + jround (1 * tpbOf exEndM) + 1)
                  (chooseChannel
                    (exEndM.data.tracks.getD (longestIdx exEndM.data.tracks) [])) 60 0]
            ++ (exEndM.data.tracks.getD (longestIdx exEndM.data.tracks) []).drop (2 + 1)))) :=
  (addBuffers_endBuffer exEndM 1 (MEvent.meta 9 2) 2 (by norm_num)
    (List.cons_ne_nil _ _) rfl rfl).1

theorem specScaleEvent_not_loud (midi : MidiObj) (opts : VelocitiesOptions)
    (e : MEvent) (h : isLoudOn e = false) : specScaleEvent midi opts e = e := by
  cases e with
  | noteOn dt c n v =>
    have hv : ¬0 < v := by simpa [isLoudOn] using h
    rw [specScaleEvent, if_neg hv]
  | noteOff dt c n v => rfl
  | meta dt p => rfl
  | channelOther dt c p => rfl

theorem chooseChannel_default (t : List MEvent)
    (h : (t.all fun e => (MEvent.channelField e).isNone) = true) :
    chooseChannel t = 1 := by
  have hany : (t.any fun e => (MEvent.channelField e).isSome) = false := by
    rw [List.any_eq_false]
    intro e he
    have hall := List.all_eq_true.mp h e he
    rcases hcf : MEvent.channelField e with _ | c
    · simp
    · rw [hcf] at hall; cases hall
  rw [chooseChannel, hany]
  simp

theorem addBuffers_isSome (midi : MidiObj) (mopts : MiscOptions)
    (h : midi.data.tracks ≠ [] ∨ truthyNum mopts.endBuffer = false) :
    (addBuffers midi mopts).isSome = true := by
  rw [addBuffers]
  cases he : truthyNum mopts.endBuffer with
  | false => simp [he]
  | true =>
    have hne : midi.data.tracks ≠ [] := by
      rcases h with h | h
      · exact h
      · rw [he] at h; cases h
    simp only [he, if_true]
    have h1 : (if truthyNum mopts.startBuffer then
        midi.data.tracks.map fun t =>
          t.map (MEvent.addDelta (jround (mopts.startBuffer.getD 0 * tpbOf midi)))
        else midi.data.tracks).isEmpty = false := by
      cases hs : truthyNum mopts.startBuffer with
      | false => simpa using isEmpty_eq_false_of_ne_nil hne
      | true =>
        simp only [if_true]
        refine isEmpty_eq_false_of_ne_nil fun hmap => hne ?_
        exact List.map_eq_nil_iff.mp hmap
    simp only [h1, Bool.false_eq_true, if_false]
    rfl

theorem addBuffers_shape (midi : MidiObj) (mopts : MiscOptions) (m' : MidiObj)
    (hm : addBuffers midi mopts = some m') : ∃ ts, m' = setTracks midi ts := by
  rw [addBuffers] at hm
  split at hm
  all_goals try split at hm
  all_goals try split at hm
  all_goals
    first
      | exact ⟨_, (Option.some.inj hm).symm⟩
      | cases hm

/-- C6 counterexample — on a structurally valid `MidiObj` with an empty tracks list
and `endBuffer` set, `addBuffers` does NOT return normally: `tracks.reduce(...,
tracks[0])` seeds with `undefined` and `longestTrack[longestTrack.length - 1]`
throws a TypeError (modelled as `none`). -/
theorem empty_tracks_throws :
    addBuffers exEmptyM { startBuffer := none, endBuffer := some 1 } = none := rfl

/-- C6 (amended) — Totality of the stages: `removeSilent`, `normalizeVelocities` and
`normalizeChannels` are total; `addBuffers` returns normally whenever the tracks
list is non-empty or the end buffer is unset (with an empty tracks list and a truthy
`endBuffer` it throws, see the counterexample).  Moreover an event that is not a
`NoteOn` with velocity > 0 — in particular any event on a channel with no observed
velocities — is left untouched by `normalizeVelocities`, and a longest track with no
channel-bearing events yields the default channel 1 in `addBuffers`. -/
theorem stages_total (midi : MidiObj) (vopts : VelocitiesOptions) (mopts : MiscOptions)
    (h : midi.data.tracks ≠ [] ∨ truthyNum mopts.endBuffer = false) :
    (addBuffers midi mopts).isSome = true
    ∧ (∀ i j e, eventAt midi i j = some e → isLoudOn e = false →
        eventAt (normalizeVelocities midi vopts) i j = some e)
    ∧ ∀ t : List MEvent, (t.all fun e => (MEvent.channelField e).isNone) = true →
        chooseChannel t = 1 := by
  refine ⟨addBuffers_isSome midi mopts h, ?_, fun t ht => chooseChannel_default t ht⟩
  intro i j e he hl
  rw [eventAt_normalizeVelocities, he]
  simp [specScaleEvent_not_loud midi vopts e hl]

/-- C6 witness: `addBuffers` succeeds on the non-empty `exStartM` with an end buffer. -/
theorem stages_total_witness :
    (addBuffers exStartM { startBuffer := none, endBuffer := some 1 }).isSome = true :=
  (stages_total exStartM { min := 0, max := 127 }
    { startBuffer := none, endBuffer := some 1 } (Or.inl (List.cons_ne_nil _ _))).1

/-- C9 — Frame condition: each of the four stage functions leaves `path`, the header
(including `ticksPerBeat`), `instrumentNames` and `trackNames` exactly unchanged;
only the track contents are rewritten (`addBuffers` stated on every normal return). -/
theorem stages_frame (midi : MidiObj) (vopts : VelocitiesOptions)
    (copts : ChannelsOptions) (mopts : MiscOptions) :
    ((removeSilent midi).path = midi.path
      ∧ (removeSilent midi).data.header = midi.data.header
      ∧ (removeSilent midi).instrumentNames = midi.instrumentNames
      ∧ (removeSilent midi).trackNames = midi.trackNames)
    ∧ ((normalizeVelocities midi vopts).path = midi.path
      ∧ (normalizeVelocities midi vopts).data.header = midi.data.header
      ∧ (normalizeVelocities midi vopts).instrumentNames = midi.instrumentNames
      ∧ (normalizeVelocities midi vopts).trackNames = midi.trackNames)
    ∧ ((normalizeChannels midi copts).path = midi.path
      ∧ (normalizeChannels midi copts).data.header = midi.data.header
      ∧ (normalizeChannels midi copts).instrumentNames = midi.instrumentNames
      ∧ (normalizeChannels midi copts).trackNames = midi.trackNames)
    ∧ ∀ m', addBuffers midi mopts = some m' →
        m'.path = midi.path ∧ m'.data.header = midi.data.header
          ∧ m'.instrumentNames = midi.instrumentNames
          ∧ m'.trackNames = midi.trackNames := by
  refine ⟨⟨rfl, rfl, rfl, rfl⟩, ⟨rfl, rfl, rfl, rfl⟩, ⟨rfl, rfl, rfl, rfl⟩, ?_⟩
  intro m' hm
  obtain ⟨ts, rfl⟩ := addBuffers_shape midi mopts m' hm
  exact ⟨rfl, rfl, rfl, rfl⟩

/-- C9 witness: the frame facts at a concrete file, the `addBuffers` hypothesis
discharged by computation. -/
theorem stages_frame_witness :
    (removeSilent (mkMidi [])).path = (mkMidi []).path
      ∧ (mkMidi []).path = (mkMidi []).path :=
  ⟨(stages_frame (mkMidi []) { min := 0, max := 127 } { rules := [] }
      { startBuffer := none, endBuffer := none }).1.1,
   ((stages_frame (mkMidi []) { min := 0, max := 127 } { rules := [] }
      { startBuffer := none, endBuffer := none }).2.2.2 (mkMidi []) rfl).1⟩

end MidiNorm
